import Mathlib

/-!
Verification of the rover motor-control server (`src/main.rs`, `src/rover.rs`)
against its natural-language specification.

The Rust source is shallowly embedded:
* `f32` arithmetic is modelled exactly over `ℚ` with explicit IEEE-754
  round-to-nearest-even rounding to a 24-bit significand (`f32round`);
* hardware register writes (`Pca9685::set_channel_on_off`) are recorded as
  `Write` values, and a PWM state is a map from channels to the last
  `(on, off)` pair written;
* the WebSocket/serde layer (external crates) is modelled from the spec's
  external-interface section where noted.
-/

set_option autoImplicit false

namespace RoverSpec

/-! ### Exact model of the `f32` arithmetic in `set_pwm_duty_cycle`

The Rust expression is
`max(0, (f32::from(pulse) * (4096f32 / 100f32) - 1f32).round() as u16)`.
Every `f32` operation is correctly rounded (round to nearest, ties to even),
`.round()` rounds half away from zero, and `as u16` saturates to `0..=65535`.
All values reached here are in the normal `f32` range, so rounding to a
24-bit significand with unbounded exponent is an exact model. -/

/-- Round a rational to the nearest integer, ties to even
(IEEE-754 default rounding, used for every `f32` operation). -/
def rne (q : ℚ) : ℤ :=
  if q - (⌊q⌋ : ℚ) < 1/2 then ⌊q⌋
  else if 1/2 < q - (⌊q⌋ : ℚ) then ⌊q⌋ + 1
  else if ⌊q⌋ % 2 = 0 then ⌊q⌋ else ⌊q⌋ + 1

/-- `f32::round`: round to the nearest integer, ties away from zero. -/
def rustRound (q : ℚ) : ℤ :=
  if 0 ≤ q then ⌊q + 1/2⌋ else -⌊-q + 1/2⌋

/-- Fuel-driven binary exponent search: for `1 ≤ q < 2 ^ fuel` it returns
the `e` with `2 ^ e ≤ q < 2 ^ (e + 1)`. -/
def expUp : ℕ → ℚ → ℕ
  | 0, _ => 0
  | fuel + 1, q => if q < 2 then 0 else expUp fuel (q / 2) + 1

/-- Fuel-driven exponent search downwards: for `0 < q < 1` it returns the
least `k` with `1 ≤ q * 2 ^ k`. -/
def expDown : ℕ → ℚ → ℕ
  | 0, _ => 0
  | fuel + 1, q => if 1 ≤ q then 0 else expDown fuel (2 * q) + 1

/-- Binary exponent of a positive rational (64 bits of fuel cover every
value occurring in the duty-cycle computation). -/
def f32exp (q : ℚ) : ℤ :=
  if 1 ≤ q then (expUp 64 q : ℤ) else -(expDown 64 q : ℤ)

/-- Round a rational to the nearest `f32` value (24-bit significand,
round to nearest, ties to even; exponent unbounded — exact for the
normal range used here). -/
def f32round (q : ℚ) : ℚ :=
  if q = 0 then 0
  else if 0 < q then
    (rne (q * (2 : ℚ) ^ ((23 : ℤ) - f32exp q)) : ℚ) * (2 : ℚ) ^ (f32exp q - 23)
  else
    -((rne (-q * (2 : ℚ) ^ ((23 : ℤ) - f32exp (-q))) : ℚ) * (2 : ℚ) ^ (f32exp (-q) - 23))

/-- The constant `4096f32 / 100f32` of `set_pwm_duty_cycle`
(both operands are exact in `f32`; the division is correctly rounded). -/
def c32 : ℚ := f32round (4096 / 100)

/-- Rust `as u16` on an integral float value: saturating cast to `0..=65535`. -/
def castU16 (z : ℤ) : ℕ := (max 0 (min 65535 z)).toNat

/-- The "off" tick computed by `set_pwm_duty_cycle` (src/rover.rs:56-60):
`max(0, (f32::from(pulse) * (4096f32 / 100f32) - 1f32).round() as u16)`.
`f32::from : u16 → f32` is lossless, so the operand `pulse` enters exactly. -/
def dutyOff (pulse : ℕ) : ℕ :=
  max 0 (castU16 (rustRound (f32round (f32round ((pulse : ℚ) * c32) - 1))))

/-- Modelled from the spec (§8): `dutyOffTick(speed) = round(speed * 40.96 - 1)`
clamped below at `0`, with exact real arithmetic (`40.96 = 4096/100`),
stated with round-half-up; no `speed` makes the argument a half-integer,
so every rounding convention agrees on `0..=100`. -/
def specDutyOff (s : ℕ) : ℤ :=
  max 0 ⌊(s : ℚ) * (4096 / 100) - 1 + 1/2⌋

/-! ### Hardware model: channels and recorded register writes -/

/-- PWM output channels of the PCA9685 controller (crate `pwm_pca9685`). -/
inductive Channel where
  | C0 | C1 | C2 | C3 | C4 | C5 | C6 | C7
  | C8 | C9 | C10 | C11 | C12 | C13 | C14 | C15
  | All
deriving DecidableEq, Repr

/-- One call to `Pca9685::set_channel_on_off(channel, on, off)`,
recorded as data (`onTick`/`offTick` are the crate's `on`/`off` arguments). -/
structure Write where
  channel : Channel
  onTick : ℕ
  offTick : ℕ
deriving DecidableEq, Repr

/-- `(on, off)` register contents per channel. -/
def PwmState := Channel → ℕ × ℕ

/-- Effect of a single register write on the PWM state. -/
def applyWrite (st : PwmState) (w : Write) : PwmState :=
  fun ch => if ch = w.channel then (w.onTick, w.offTick) else st ch

/-- Effect of a sequence of register writes, first write first. -/
def applyWrites (ws : List Write) (st : PwmState) : PwmState :=
  ws.foldl applyWrite st

/-! ### DCMotor and Rover (src/rover.rs) -/

/-- `DCMotorDirection` (src/rover.rs:9-12). -/
inductive DCMotorDirection where
  | Forward
  | Backward
deriving DecidableEq, Repr

/-- The channel triple of a `DCMotor` (src/rover.rs:14-19); the shared
`Pca9685` handle is represented by the recorded writes. -/
structure DCMotor where
  control : Channel
  forward : Channel
  backward : Channel
deriving DecidableEq, Repr

/-- `DCMotor::set_pwm_duty_cycle` (src/rover.rs:55-64): writes
`(0, dutyOff pulse)` to the given channel. -/
def set_pwm_duty_cycle (channel : Channel) (pulse : ℕ) : Write :=
  ⟨channel, 0, dutyOff pulse⟩

/-- `DCMotor::set_level` (src/rover.rs:66-74): writes `(0, 4095)` if
`value == 1` and `(0, 0)` otherwise. -/
def set_level (channel : Channel) (value : ℕ) : Write :=
  if value = 1 then ⟨channel, 0, 4095⟩ else ⟨channel, 0, 0⟩

/-- `DCMotor::set_speed` (src/rover.rs:76-91): duty write on the control
channel with the unmodified `speed`, then the two direction-level writes. -/
def DCMotor.set_speed (m : DCMotor) (speed : ℕ) (direction : DCMotorDirection) :
    List Write :=
  set_pwm_duty_cycle m.control speed ::
    (match direction with
     | .Forward => [set_level m.forward 1, set_level m.backward 0]
     | .Backward => [set_level m.forward 0, set_level m.backward 1])

/-- `DCMotor::stop` (src/rover.rs:93-96): a single duty write of pulse `0`
on the control channel; the direction channels are not written. -/
def DCMotor.stop (m : DCMotor) : List Write :=
  [set_pwm_duty_cycle m.control 0]

/-- `Rover` (src/rover.rs:100-103). -/
structure Rover where
  right_motor : DCMotor
  left_motor : DCMotor
deriving DecidableEq, Repr

/-- `Rover::new` (src/rover.rs:106-119): right motor on `(C0, C1, C2)`,
left motor on `(C5, C3, C4)`. -/
def Rover.new : Rover :=
  { right_motor := ⟨.C0, .C1, .C2⟩
    left_motor := ⟨.C5, .C3, .C4⟩ }

/-- `Rover::stop` (src/rover.rs:121-126): stop the right motor, then the
left motor. -/
def Rover.stop (r : Rover) : List Write :=
  r.right_motor.stop ++ r.left_motor.stop

/-! ### Command protocol (src/main.rs:20-30)

The wire format is serde_json's externally tagged encoding, fixed by the
spec's external-interface section (§6). serde_json itself is an external
crate, so the codec below is modelled from the spec's wire format. -/

/-- `RoverMotorId` (src/main.rs:20-24). -/
inductive RoverMotorId where
  | Left
  | Right
deriving DecidableEq, Repr

/-- `RoverCommand` (src/main.rs:26-30). The `speed` field is a `u16`;
it is modelled as `ℕ`, with the representability bound `speed ≤ 65535`
carried as a hypothesis where it matters. -/
inductive RoverCommand where
  | MotorRun (motor : RoverMotorId) (direction : DCMotorDirection) (speed : ℕ)
  | MotorStop (motor : RoverMotorId)
deriving DecidableEq, Repr

/-- The character list of a string literal. -/
def lit (s : String) : List Char := s.data

/-- Wire-format segments (spec §6, canonical serde_json encoding). -/
def runPre : List Char := lit "\x7b\"MotorRun\":\x7b\"motor\":\""

def stopPre : List Char := lit "\x7b\"MotorStop\":\x7b\"motor\":\""

def dirSep : List Char := lit ",\"direction\":\""

def speedSep : List Char := lit ",\"speed\":"

def objEnd : List Char := lit "\x7d\x7d"

def leftTag : List Char := lit "Left\""

def rightTag : List Char := lit "Right\""

def fwdTag : List Char := lit "Forward\""

def bwdTag : List Char := lit "Backward\""

/-- The decimal digit character for `k % 10`-style values `0..=9`. -/
def digitChar (k : ℕ) : Char :=
  if k = 0 then '0' else if k = 1 then '1' else if k = 2 then '2'
  else if k = 3 then '3' else if k = 4 then '4' else if k = 5 then '5'
  else if k = 6 then '6' else if k = 7 then '7' else if k = 8 then '8'
  else '9'

/-- Decimal digits of `n`, most significant first; `fuel > n` suffices. -/
def digitsAux : ℕ → ℕ → List Char
  | 0, _ => []
  | fuel + 1, n =>
    if n < 10 then [digitChar n]
    else digitsAux fuel (n / 10) ++ [digitChar (n % 10)]

/-- Canonical decimal representation of a natural number. -/
def natChars (n : ℕ) : List Char := digitsAux (n + 1) n

/-- Numeric value of a decimal digit character. -/
def digitVal (c : Char) : ℕ := c.toNat - 48

/-- The motor wire tag with its closing quote. -/
def motorTag : RoverMotorId → List Char
  | .Left => leftTag
  | .Right => rightTag

/-- The direction wire tag with its closing quote. -/
def dirTag : DCMotorDirection → List Char
  | .Forward => fwdTag
  | .Backward => bwdTag

/-- Modelled from the spec: the canonical serde_json encoding of a
`RoverCommand` (spec §6: externally tagged, field order as declared,
case-sensitive names). -/
def encodeList (c : RoverCommand) : List Char :=
  match c with
  | .MotorRun m d s =>
    runPre ++ (motorTag m ++ (dirSep ++ (dirTag d ++ (speedSep ++ (natChars s ++ objEnd)))))
  | .MotorStop m =>
    stopPre ++ (motorTag m ++ objEnd)

/-- String form of `encodeList`. -/
def encode (c : RoverCommand) : String := ⟨encodeList c⟩

/-- Consume an expected literal prefix, returning the rest of the input. -/
def dropLit : List Char → List Char → Option (List Char)
  | [], cs => some cs
  | _ :: _, [] => none
  | p :: ps, c :: cs => if c = p then dropLit ps cs else none

/-- Parse a motor tag (with its closing quote). -/
def parseMotorId (cs : List Char) : Option (RoverMotorId × List Char) :=
  match dropLit leftTag cs with
  | some rest => some (.Left, rest)
  | none =>
    match dropLit rightTag cs with
    | some rest => some (.Right, rest)
    | none => none

/-- Parse a direction tag (with its closing quote). -/
def parseDirection (cs : List Char) : Option (DCMotorDirection × List Char) :=
  match dropLit fwdTag cs with
  | some rest => some (.Forward, rest)
  | none =>
    match dropLit bwdTag cs with
    | some rest => some (.Backward, rest)
    | none => none

/-- Consume a maximal run of decimal digits, accumulating their value. -/
def parseDigits : List Char → ℕ → ℕ × List Char
  | [], acc => (acc, [])
  | c :: cs, acc =>
    if c.isDigit then parseDigits cs (acc * 10 + digitVal c)
    else (acc, c :: cs)

/-- Parse a JSON non-negative integer: `0`, or a nonzero leading digit
followed by more digits (JSON forbids leading zeros). -/
def parseSpeed (cs : List Char) : Option (ℕ × List Char) :=
  match cs with
  | [] => none
  | c :: rest =>
    if c = '0' then some (0, rest)
    else if c.isDigit then some (parseDigits rest (digitVal c))
    else none

/-- Parse the remainder of a `MotorRun` object after the motor field. -/
def parseRunTail (m : RoverMotorId) (cs : List Char) : Option RoverCommand :=
  match dropLit dirSep cs with
  | none => none
  | some cs2 =>
    match parseDirection cs2 with
    | none => none
    | some (d, cs3) =>
      match dropLit speedSep cs3 with
      | none => none
      | some cs4 =>
        match parseSpeed cs4 with
        | none => none
        | some (s, cs5) =>
          if s ≤ 65535 then
            match dropLit objEnd cs5 with
            | some [] => some (.MotorRun m d s)
            | _ => none
          else none

/-- Modelled from the spec: `decode(frame) -> Result Command DecodeError`
(spec §4.3/§6). Accepts exactly the canonical wire form; malformed JSON,
unknown discriminants, trailing input, leading zeros and out-of-`u16`-range
speeds are decode errors (`none`). -/
def decodeList (cs : List Char) : Option RoverCommand :=
  match dropLit runPre cs with
  | some cs1 =>
    match parseMotorId cs1 with
    | some (m, cs2) => parseRunTail m cs2
    | none => none
  | none =>
    match dropLit stopPre cs with
    | some cs1 =>
      match parseMotorId cs1 with
      | some (m, cs2) =>
        match dropLit objEnd cs2 with
        | some [] => some (.MotorStop m)
        | _ => none
      | none => none
    | none => none

/-- Decode a text frame. -/
def decode (s : String) : Option RoverCommand := decodeList s.data

/-! ### Session supervisor (src/main.rs:32-130, 204-211) -/

/-- Modelled from the spec: a transport frame is a text frame or a close
notification (§6: "deliver me a sequence of textual frames; tell me when
the channel closes"); a `tungstenite` close frame carries an optional
payload, which `handle_message` ignores (`Message::Close(_)`). -/
inductive Msg where
  | text (s : String)
  | close (payload : Option String)
deriving DecidableEq, Repr

/-- The `Result<(), ()>` returned by `handle_message`. -/
inductive HandleResult where
  | ok
  | err
deriving DecidableEq, Repr

/-- The motor dispatch of a decoded command (src/main.rs:52-69). -/
def applyCommand (rover : Rover) (c : RoverCommand) : List Write :=
  match c with
  | .MotorRun motor direction speed =>
    match motor with
    | .Right => rover.right_motor.set_speed speed direction
    | .Left => rover.left_motor.set_speed speed direction
  | .MotorStop motor =>
    match motor with
    | .Right => rover.right_motor.stop
    | .Left => rover.left_motor.stop

/-- `handle_message` (src/main.rs:32-78), parameterised by the decoder:
a close frame returns `Ok(())` before the decoder is invoked; a text frame
is decoded, a decoded command is dispatched, and a decode failure is only
logged; every path returns `Ok(())`. -/
def handle_message_with (dec : String → Option RoverCommand) (msg : Msg)
    (rover : Rover) : HandleResult × List Write :=
  match msg with
  | .close _ => (.ok, [])
  | .text s =>
    match dec s with
    | some c => (.ok, applyCommand rover c)
    | none => (.ok, [])

/-- `handle_message` with the actual decoder. -/
def handle_message (msg : Msg) (rover : Rover) : HandleResult × List Write :=
  handle_message_with decode msg rover

/-- How the frame stream ends: exhaustion (`Ok`), a clean
`Err(Error::ConnectionClosed)`, or any other transport error (src/main.rs:118-130). -/
inductive StreamEnd where
  | exhausted
  | connectionClosed
  | otherError
deriving DecidableEq, Repr

/-- The receive loop (src/main.rs:112-116): each incoming message is passed
to `handle_message`, whose `Result` is discarded. -/
def session_receive (msgs : List Msg) (rover : Rover) : List Write :=
  msgs.foldl (fun acc m => acc ++ (handle_message m rover).2) []

/-- The whole session task after the upgrade (src/main.rs:112-130): the
receive loop, then the `match receive.await` whose three arms
(`Ok`, `Err(ConnectionClosed)`, `Err(e)`) each call `rover.stop()`. -/
def session (msgs : List Msg) (ending : StreamEnd) (rover : Rover) : List Write :=
  session_receive msgs rover ++
    match ending with
    | .exhausted => rover.stop
    | .connectionClosed => rover.stop
    | .otherError => rover.stop

/-- `shutdown_signal` (src/main.rs:204-211): on the interrupt signal,
`rover.stop()` is invoked before the graceful shutdown completes. -/
def shutdown_signal (rover : Rover) : List Write := rover.stop

/-! ## Theorems

First the arithmetic toolbox for the exact `f32` model, then the claims. -/

theorem rne_bounds (q : ℚ) : q - 1/2 ≤ (rne q : ℚ) ∧ (rne q : ℚ) ≤ q + 1/2 := by
  have h1 : (⌊q⌋ : ℚ) ≤ q := Int.floor_le q
  have h2 : q < ⌊q⌋ + 1 := Int.lt_floor_add_one q
  unfold rne
  split_ifs with ha hb hc
  · exact ⟨by linarith, by linarith⟩
  · exact ⟨by push_cast; linarith, by push_cast; linarith⟩
  · exact ⟨by linarith, by linarith⟩
  · exact ⟨by push_cast; linarith, by push_cast; linarith⟩

theorem expUp_correct (fuel : ℕ) : ∀ q : ℚ, 1 ≤ q → q < 2 ^ fuel →
    (2 : ℚ) ^ expUp fuel q ≤ q ∧ q < 2 ^ (expUp fuel q + 1) := by
  induction fuel with
  | zero =>
    intro q h1 h2
    rw [pow_zero] at h2
    linarith
  | succ f ih =>
    intro q h1 h2
    simp only [expUp]
    split_ifs with hq
    · refine ⟨by simpa using h1, ?_⟩
      simpa using hq
    · push_neg at hq
      have h1' : 1 ≤ q / 2 := by linarith
      have h2' : q / 2 < 2 ^ f := by
        rw [pow_succ] at h2
        linarith
      obtain ⟨hl, hr⟩ := ih (q / 2) h1' h2'
      constructor
      · rw [pow_succ]
        linarith
      · rw [pow_succ]
        linarith

theorem f32round_bounds (q : ℚ) (h1 : 1 ≤ q) (h2 : q < 2 ^ 63) :
    q - q / 2 ^ 24 ≤ f32round q ∧ f32round q ≤ q + q / 2 ^ 24 := by
  have hqpos : (0 : ℚ) < q := by linarith
  have hq0 : q ≠ 0 := ne_of_gt hqpos
  have hexp : f32exp q = (expUp 64 q : ℤ) := by rw [f32exp, if_pos h1]
  obtain ⟨hl, hr⟩ := expUp_correct 64 q h1 (lt_trans h2 (by norm_num))
  unfold f32round
  rw [if_neg hq0, if_pos hqpos, hexp]
  obtain ⟨hb1, hb2⟩ := rne_bounds (q * (2 : ℚ) ^ ((23 : ℤ) - (expUp 64 q : ℤ)))
  have h2ne : (2 : ℚ) ≠ 0 := by norm_num
  have hu : (0 : ℚ) < (2 : ℚ) ^ ((expUp 64 q : ℤ) - 23) := by positivity
  have hcancel : (2 : ℚ) ^ ((23 : ℤ) - (expUp 64 q : ℤ)) * (2 : ℚ) ^ ((expUp 64 q : ℤ) - 23) = 1 := by
    rw [← zpow_add₀ h2ne]
    norm_num
  have hxu : q * (2 : ℚ) ^ ((23 : ℤ) - (expUp 64 q : ℤ)) * (2 : ℚ) ^ ((expUp 64 q : ℤ) - 23) = q := by
    rw [mul_assoc, hcancel, mul_one]
  have hhalf : (1 / 2 : ℚ) * (2 : ℚ) ^ ((expUp 64 q : ℤ) - 23) ≤ q / 2 ^ 24 := by
    have h2e : (2 : ℚ) ^ ((expUp 64 q : ℤ)) ≤ q := by
      rw [zpow_natCast]
      exact hl
    rw [le_div_iff₀ (by positivity : (0 : ℚ) < 2 ^ 24)]
    have heq : (1 / 2 : ℚ) * (2 : ℚ) ^ ((expUp 64 q : ℤ) - 23) * 2 ^ 24 =
        (2 : ℚ) ^ ((expUp 64 q : ℤ)) := by
      rw [show ((2 : ℚ) ^ (24 : ℕ)) = (2 : ℚ) ^ ((24 : ℤ)) from (zpow_natCast 2 24).symm,
        mul_assoc, ← zpow_add₀ h2ne,
        show ((expUp 64 q : ℤ) - 23 + 24) = (expUp 64 q : ℤ) + 1 by ring,
        zpow_add₀ h2ne, zpow_one]
      ring
    rw [heq]
    exact h2e
  constructor
  · calc q - q / 2 ^ 24
        ≤ q - (1 / 2 : ℚ) * (2 : ℚ) ^ ((expUp 64 q : ℤ) - 23) := by linarith
      _ = (q * (2 : ℚ) ^ ((23 : ℤ) - (expUp 64 q : ℤ)) - 1 / 2) * (2 : ℚ) ^ ((expUp 64 q : ℤ) - 23) := by
          rw [sub_mul, hxu]
      _ ≤ (rne (q * (2 : ℚ) ^ ((23 : ℤ) - (expUp 64 q : ℤ))) : ℚ) * (2 : ℚ) ^ ((expUp 64 q : ℤ) - 23) :=
          mul_le_mul_of_nonneg_right hb1 (le_of_lt hu)
  · calc (rne (q * (2 : ℚ) ^ ((23 : ℤ) - (expUp 64 q : ℤ))) : ℚ) * (2 : ℚ) ^ ((expUp 64 q : ℤ) - 23)
        ≤ (q * (2 : ℚ) ^ ((23 : ℤ) - (expUp 64 q : ℤ)) + 1 / 2) * (2 : ℚ) ^ ((expUp 64 q : ℤ) - 23) :=
          mul_le_mul_of_nonneg_right hb2 (le_of_lt hu)
      _ = q + (1 / 2 : ℚ) * (2 : ℚ) ^ ((expUp 64 q : ℤ) - 23) := by
          rw [add_mul, hxu]
      _ ≤ q + q / 2 ^ 24 := by linarith

theorem c32_val : c32 = (5368709 : ℚ) / 131072 := by
  have h1 : c32.num = 5368709 := by with_unfolding_all decide
  have h2 : c32.den = 131072 := by with_unfolding_all decide
  have h3 : ((5368709 : ℚ) / 131072).num = 5368709 := by with_unfolding_all decide
  have h4 : ((5368709 : ℚ) / 131072).den = 131072 := by with_unfolding_all decide
  exact Rat.ext (h1.trans h3.symm) (h2.trans h4.symm)

theorem dutyOff_100 : dutyOff 100 = 4095 := by with_unfolding_all decide

/-- For every `u16` speed strictly above `100`, the computed off tick
exceeds the 4095 period ceiling. -/
theorem dutyOff_gt_4095 (p : ℕ) (hp1 : 100 < p) (hp2 : p ≤ 65535) :
    4095 < dutyOff p := by
  have hp1' : (101 : ℚ) ≤ (p : ℚ) := by exact_mod_cast hp1
  have hp2' : (p : ℚ) ≤ 65535 := by exact_mod_cast hp2
  have hcpos : (0 : ℚ) < (5368709 : ℚ) / 131072 := by norm_num
  have hx1 : (4136 : ℚ) ≤ (p : ℚ) * c32 := by
    rw [c32_val]
    calc (4136 : ℚ) ≤ 101 * ((5368709 : ℚ) / 131072) := by norm_num
      _ ≤ (p : ℚ) * ((5368709 : ℚ) / 131072) :=
          mul_le_mul_of_nonneg_right hp1' (le_of_lt hcpos)
  have hx2 : (p : ℚ) * c32 ≤ 2684314 := by
    rw [c32_val]
    calc (p : ℚ) * ((5368709 : ℚ) / 131072) ≤ 65535 * ((5368709 : ℚ) / 131072) :=
          mul_le_mul_of_nonneg_right hp2' (le_of_lt hcpos)
      _ ≤ 2684314 := by norm_num
  have hx3 : (1 : ℚ) ≤ (p : ℚ) * c32 := by linarith
  have hx4 : (p : ℚ) * c32 < 2 ^ 63 := by
    have : (2684314 : ℚ) < 2 ^ 63 := by norm_num
    linarith
  obtain ⟨hf1, hf2⟩ := f32round_bounds ((p : ℚ) * c32) hx3 hx4
  have e24 : ((2 : ℚ) ^ (24 : ℕ)) = 16777216 := by norm_num
  rw [e24] at hf1 hf2
  have hq24a : ((p : ℚ) * c32) / 16777216 ≤ 1 := by linarith
  have hq24b : (0 : ℚ) ≤ ((p : ℚ) * c32) / 16777216 := by positivity
  have hy1 : (1 : ℚ) ≤ f32round ((p : ℚ) * c32) - 1 := by linarith
  have hy2 : f32round ((p : ℚ) * c32) - 1 < 2 ^ 63 := by
    have : (2684316 : ℚ) < 2 ^ 63 := by norm_num
    linarith
  obtain ⟨hg1, hg2⟩ := f32round_bounds (f32round ((p : ℚ) * c32) - 1) hy1 hy2
  rw [e24] at hg1 hg2
  have hz24 : (f32round ((p : ℚ) * c32) - 1) / 16777216 ≤ 1 := by linarith
  have hsub : (4096 : ℚ) - 1/2 ≤ f32round (f32round ((p : ℚ) * c32) - 1) := by linarith
  have hsub0 : (0 : ℚ) ≤ f32round (f32round ((p : ℚ) * c32) - 1) := by linarith
  have hr : (4096 : ℤ) ≤ rustRound (f32round (f32round ((p : ℚ) * c32) - 1)) := by
    rw [rustRound, if_pos hsub0]
    apply Int.le_floor.mpr
    push_cast
    linarith
  have hcast : 4096 ≤ castU16 (rustRound (f32round (f32round ((p : ℚ) * c32) - 1))) := by
    unfold castU16
    omega
  calc 4095 < 4096 := by norm_num
    _ ≤ castU16 (rustRound (f32round (f32round ((p : ℚ) * c32) - 1))) := hcast
    _ ≤ dutyOff p := le_max_right _ _

set_option maxRecDepth 1500 in
/-- C2: for every speed in `0..=100` the off tick written by
`set_pwm_duty_cycle` equals the spec formula `round(speed * 40.96 - 1)`
clamped below at `0` (`specDutyOff`); in particular it is `0` at speed `0`
(the intermediate `round(-1) = -1` is brought to `0` by the saturating
cast/clamp) and `2047` at speed `50`. -/
theorem C2_duty_cycle_formula :
    (∀ (ch : Channel) (s : ℕ), s ≤ 100 →
      ((set_pwm_duty_cycle ch s).offTick : ℤ) = specDutyOff s) ∧
    (∀ ch : Channel, (set_pwm_duty_cycle ch 0).offTick = 0) ∧
    (∀ ch : Channel, (set_pwm_duty_cycle ch 50).offTick = 2047) := by
  refine ⟨?_, ?_, ?_⟩
  · have hall : ((List.range 101).all fun s => (dutyOff s : ℤ) == specDutyOff s) = true := by
      with_unfolding_all decide
    intro ch s hs
    have hmem : s ∈ List.range 101 := List.mem_range.mpr (by omega)
    have hbeq := List.all_eq_true.mp hall s hmem
    exact eq_of_beq hbeq
  · intro ch
    show dutyOff 0 = 0
    with_unfolding_all decide
  · intro ch
    show dutyOff 50 = 2047
    with_unfolding_all decide

/-- Witness for C2 at speed `50` on the left motor's control channel. -/
theorem C2_duty_cycle_formula_witness :
    ((set_pwm_duty_cycle Channel.C5 50).offTick : ℤ) = specDutyOff 50 :=
  C2_duty_cycle_formula.1 Channel.C5 50 (by decide)

/-- C4: `set_speed` passes its `speed` argument to the duty-cycle write
unvalidated (the head write of `set_speed` is exactly
`set_pwm_duty_cycle control speed`), and for every speed in `101..=65535`
the computed control-channel off tick strictly exceeds the 4095 period
ceiling. -/
theorem C4_no_range_validation (m : DCMotor) (d : DCMotorDirection) (s : ℕ)
    (h1 : 100 < s) (h2 : s ≤ 65535) :
    (m.set_speed s d).head? = some (set_pwm_duty_cycle m.control s) ∧
    4095 < (set_pwm_duty_cycle m.control s).offTick :=
  ⟨by cases d <;> rfl, dutyOff_gt_4095 s h1 h2⟩

/-- Witness for C4 at speed `101` on the right motor. -/
theorem C4_no_range_validation_witness :
    ((⟨Channel.C0, Channel.C1, Channel.C2⟩ : DCMotor).set_speed 101 .Forward).head? =
      some (set_pwm_duty_cycle Channel.C0 101) ∧
    4095 < (set_pwm_duty_cycle Channel.C0 101).offTick :=
  C4_no_range_validation ⟨Channel.C0, Channel.C1, Channel.C2⟩ .Forward 101
    (by decide) (by decide)

/-- C3 is false as stated: the hardware write for a decoded `MotorRun` with
speed `101` differs from the write for speed `100` (no clamping happens;
the off tick becomes `4136`, not `4095`). -/
theorem C3_counterexample :
    handle_message (.text "\x7b\"MotorRun\":\x7b\"motor\":\"Left\",\"direction\":\"Forward\",\"speed\":101\x7d\x7d") Rover.new ≠
    handle_message (.text "\x7b\"MotorRun\":\x7b\"motor\":\"Left\",\"direction\":\"Forward\",\"speed\":100\x7d\x7d") Rover.new := by
  with_unfolding_all decide

/-- C3 (amended): the decoded speed is applied unclamped — for every decoded
`MotorRun` command with speed in `101..=65535`, the dispatched hardware
writes differ from those of the same command at speed `100`, because the
control off tick exceeds `4095 = dutyOff 100`. -/
theorem C3_amended_no_clamp (m : RoverMotorId) (d : DCMotorDirection) (s : ℕ)
    (h1 : 100 < s) (h2 : s ≤ 65535) :
    applyCommand Rover.new (.MotorRun m d s) ≠
      applyCommand Rover.new (.MotorRun m d 100) ∧
    4095 < dutyOff s := by
  have hgt := dutyOff_gt_4095 s h1 h2
  have h100 : dutyOff 100 = 4095 := dutyOff_100
  refine ⟨?_, hgt⟩
  cases m <;> cases d <;>
    · intro hEq
      simp only [applyCommand, DCMotor.set_speed, set_pwm_duty_cycle, Rover.new,
        List.cons.injEq, Write.mk.injEq] at hEq
      omega

/-- Witness for the amended C3 at speed `101`. -/
theorem C3_amended_no_clamp_witness :
    applyCommand Rover.new (.MotorRun .Left .Forward 101) ≠
      applyCommand Rover.new (.MotorRun .Left .Forward 100) ∧
    4095 < dutyOff 101 :=
  C3_amended_no_clamp .Left .Forward 101 (by decide) (by decide)

/-- C5: for every `set_speed` call, `Forward` writes off tick `4095` to the
forward channel and `0` to the backward channel, `Backward` is the mirror,
and a direction-level write (`set_level`) only ever carries off tick `0` or
`4095`, never an intermediate value. -/
theorem C5_direction_channels_binary (m : DCMotor) (speed : ℕ) :
    m.set_speed speed .Forward =
      [set_pwm_duty_cycle m.control speed, ⟨m.forward, 0, 4095⟩, ⟨m.backward, 0, 0⟩] ∧
    m.set_speed speed .Backward =
      [set_pwm_duty_cycle m.control speed, ⟨m.forward, 0, 0⟩, ⟨m.backward, 0, 4095⟩] ∧
    ∀ (ch : Channel) (v : ℕ),
      (set_level ch v).offTick = 0 ∨ (set_level ch v).offTick = 4095 := by
  refine ⟨rfl, rfl, ?_⟩
  intro ch v
  rcases eq_or_ne v 1 with h | h <;> simp [set_level, h]

/-- C9: a transport-level close frame is returned as `Ok(())` before the
decoder is ever consulted — `handle_message` on a close frame yields no
writes under an arbitrary decoder, hence the frame is never treated as a
`Command`. -/
theorem C9_close_frame_intercepted (dec : String → Option RoverCommand)
    (payload : Option String) (r : Rover) :
    handle_message_with dec (.close payload) r = (.ok, []) ∧
    handle_message (.close payload) r = (.ok, []) :=
  ⟨rfl, rfl⟩

/-- C1: every ending of the receive loop — exhaustion, `ConnectionClosed`,
or any other transport error — makes the session end with the
`Rover.stop` writes (which stop both motors: control off tick `0` on each),
and the interrupt handler `shutdown_signal` issues exactly `Rover.stop`. -/
theorem C1_stop_on_every_exit (msgs : List Msg) (ending : StreamEnd) (r : Rover) :
    r.stop <:+ session msgs ending r ∧
    r.stop = [⟨r.right_motor.control, 0, 0⟩, ⟨r.left_motor.control, 0, 0⟩] ∧
    shutdown_signal r = r.stop := by
  refine ⟨⟨session_receive msgs r, by cases ending <;> rfl⟩, ?_, rfl⟩
  have h0 : dutyOff 0 = 0 := by with_unfolding_all decide
  simp [Rover.stop, DCMotor.stop, set_pwm_duty_cycle, h0]

/-- C10: `Rover::new` puts the right motor on channels `(C0, C1, C2)` and
the left motor on `(C5, C3, C4)`; the two channel sets are disjoint, so
`set_speed` and `stop` on one motor leave all three channels of the other
motor unchanged. -/
theorem C10_motor_channel_disjointness :
    Rover.new.right_motor = (⟨.C0, .C1, .C2⟩ : DCMotor) ∧
    Rover.new.left_motor = (⟨.C5, .C3, .C4⟩ : DCMotor) ∧
    ∀ (st : PwmState) (speed : ℕ) (d : DCMotorDirection),
      (applyWrites (Rover.new.right_motor.set_speed speed d) st .C3 = st .C3 ∧
       applyWrites (Rover.new.right_motor.set_speed speed d) st .C4 = st .C4 ∧
       applyWrites (Rover.new.right_motor.set_speed speed d) st .C5 = st .C5) ∧
      (applyWrites Rover.new.right_motor.stop st .C3 = st .C3 ∧
       applyWrites Rover.new.right_motor.stop st .C4 = st .C4 ∧
       applyWrites Rover.new.right_motor.stop st .C5 = st .C5) ∧
      (applyWrites (Rover.new.left_motor.set_speed speed d) st .C0 = st .C0 ∧
       applyWrites (Rover.new.left_motor.set_speed speed d) st .C1 = st .C1 ∧
       applyWrites (Rover.new.left_motor.set_speed speed d) st .C2 = st .C2) ∧
      (applyWrites Rover.new.left_motor.stop st .C0 = st .C0 ∧
       applyWrites Rover.new.left_motor.stop st .C1 = st .C1 ∧
       applyWrites Rover.new.left_motor.stop st .C2 = st .C2) := by
  refine ⟨rfl, rfl, ?_⟩
  intro st speed d
  cases d <;>
    simp [Rover.new, DCMotor.set_speed, DCMotor.stop, set_pwm_duty_cycle,
      set_level, applyWrites, applyWrite]

/-- C7: a text frame the decoder rejects produces no motor operation, the
PWM state is left unchanged, and `handle_message` still returns `Ok(())`,
so the session continues. -/
theorem C7_decode_error_session_continues (s : String) (r : Rover)
    (h : decode s = none) :
    handle_message (.text s) r = (.ok, []) ∧
    ∀ st : PwmState, applyWrites (handle_message (.text s) r).2 st = st := by
  have hh : handle_message (.text s) r = (.ok, []) := by
    simp only [handle_message, handle_message_with, h]
  exact ⟨hh, fun st => by rw [hh]; rfl⟩

/-- Witness for C7 on the spec's example frame `not valid json`. -/
theorem C7_decode_error_session_continues_witness :
    handle_message (.text "not valid json") Rover.new = (.ok, []) :=
  (C7_decode_error_session_continues "not valid json" Rover.new (by decide)).1

/-- C6: `DCMotor::stop` writes `(0, 0)` to the control channel only, leaving
the direction channels' last-written values unchanged; end to end, a decoded
`MotorStop` for the right motor writes only `(0, 0)` on `C0` and leaves the
direction channels `C1`, `C2` untouched. -/
theorem C6_stop_touches_only_control :
    (∀ (m : DCMotor) (st : PwmState),
      m.stop = [⟨m.control, 0, 0⟩] ∧
      ∀ ch : Channel, ch ≠ m.control → applyWrites m.stop st ch = st ch) ∧
    (handle_message (.text (encode (.MotorStop .Right))) Rover.new =
      (.ok, [⟨.C0, 0, 0⟩]) ∧
     ∀ st : PwmState,
       applyWrites (handle_message (.text (encode (.MotorStop .Right))) Rover.new).2 st .C1 = st .C1 ∧
       applyWrites (handle_message (.text (encode (.MotorStop .Right))) Rover.new).2 st .C2 = st .C2) := by
  have h0 : dutyOff 0 = 0 := by with_unfolding_all decide
  have hmsg : handle_message (.text (encode (.MotorStop .Right))) Rover.new =
      (.ok, [⟨.C0, 0, 0⟩]) := by
    with_unfolding_all decide
  refine ⟨fun m st => ⟨?_, fun ch hch => ?_⟩, hmsg, fun st => ?_⟩
  · simp [DCMotor.stop, set_pwm_duty_cycle, h0]
  · simp [DCMotor.stop, set_pwm_duty_cycle, applyWrites, applyWrite, hch]
  · rw [hmsg]
    simp [applyWrites, applyWrite]

/-- Witness for C6: a stop of the right motor leaves the forward channel
`C1` of a concrete PWM state unchanged. -/
theorem C6_stop_touches_only_control_witness :
    applyWrites (DCMotor.stop ⟨Channel.C0, Channel.C1, Channel.C2⟩)
      (fun _ => (7, 7)) Channel.C1 = (7, 7) :=
  ((C6_stop_touches_only_control.1 ⟨Channel.C0, Channel.C1, Channel.C2⟩
    (fun _ => (7, 7))).2 Channel.C1 (by decide))

/-! ### Round-trip of the wire codec (C8) -/

theorem dropLit_self (p rest : List Char) : dropLit p (p ++ rest) = some rest := by
  induction p with
  | nil => rfl
  | cons c cs ih => simp [dropLit, ih]

theorem dropLit_refl (p : List Char) : dropLit p p = some [] := by
  have h := dropLit_self p []
  rwa [List.append_nil] at h

theorem parseMotorId_leftTag (rest : List Char) :
    parseMotorId (leftTag ++ rest) = some (.Left, rest) := by
  unfold parseMotorId
  rw [dropLit_self]

theorem parseMotorId_rightTag (rest : List Char) :
    parseMotorId (rightTag ++ rest) = some (.Right, rest) := by
  unfold parseMotorId
  have h : dropLit leftTag (rightTag ++ rest) = none := rfl
  rw [h, dropLit_self]

theorem parseDirection_fwdTag (rest : List Char) :
    parseDirection (fwdTag ++ rest) = some (.Forward, rest) := by
  unfold parseDirection
  rw [dropLit_self]

theorem parseDirection_bwdTag (rest : List Char) :
    parseDirection (bwdTag ++ rest) = some (.Backward, rest) := by
  unfold parseDirection
  have h : dropLit fwdTag (bwdTag ++ rest) = none := rfl
  rw [h, dropLit_self]

theorem digitChar_isDigit (k : ℕ) : (digitChar k).isDigit = true := by
  unfold digitChar
  split_ifs <;> decide

theorem digitChar_ne_zero (k : ℕ) (h : k ≠ 0) : digitChar k ≠ '0' := by
  unfold digitChar
  split_ifs with h0 <;> first
    | exact absurd h0 h
    | decide

theorem digitVal_digitChar (k : ℕ) (h : k < 10) : digitVal (digitChar k) = k := by
  unfold digitChar
  split_ifs with h0 h1 h2 h3 h4 h5 h6 h7 h8
  · rw [h0]; decide
  · rw [h1]; decide
  · rw [h2]; decide
  · rw [h3]; decide
  · rw [h4]; decide
  · rw [h5]; decide
  · rw [h6]; decide
  · rw [h7]; decide
  · rw [h8]; decide
  · have h9 : k = 9 := by omega
    rw [h9]; decide

theorem digitsAux_digits (fuel : ℕ) :
    ∀ n, ∀ c ∈ digitsAux fuel n, c.isDigit = true := by
  induction fuel with
  | zero => intro n c hc; simp [digitsAux] at hc
  | succ f ih =>
    intro n c hc
    unfold digitsAux at hc
    split_ifs at hc with h
    · rw [List.mem_singleton] at hc
      rw [hc]
      exact digitChar_isDigit n
    · rw [List.mem_append] at hc
      rcases hc with hc | hc
      · exact ih _ c hc
      · rw [List.mem_singleton] at hc
        rw [hc]
        exact digitChar_isDigit _

theorem digitsAux_foldl (fuel : ℕ) :
    ∀ n acc, n < fuel →
      List.foldl (fun a c => a * 10 + digitVal c) acc (digitsAux fuel n) =
        acc * 10 ^ (digitsAux fuel n).length + n := by
  induction fuel with
  | zero => intro n acc h; exact absurd h (Nat.not_lt_zero n)
  | succ f ih =>
    intro n acc h
    unfold digitsAux
    split_ifs with h10
    · simp [digitVal_digitChar n h10]
    · push_neg at h10
      have hrec : n / 10 < f := by omega
      rw [List.foldl_append, ih (n / 10) acc hrec, List.length_append]
      simp only [List.foldl_cons, List.foldl_nil, List.length_singleton]
      rw [digitVal_digitChar (n % 10) (by omega)]
      have hmod := Nat.div_add_mod n 10
      have hmod' : n / 10 * 10 + n % 10 = n := by omega
      calc (acc * 10 ^ (digitsAux f (n / 10)).length + n / 10) * 10 + n % 10
          = acc * (10 ^ (digitsAux f (n / 10)).length * 10) + (n / 10 * 10 + n % 10) := by ring
        _ = acc * 10 ^ ((digitsAux f (n / 10)).length + 1) + n := by
            rw [pow_succ, hmod']

theorem digitsAux_head (fuel : ℕ) :
    ∀ n, 0 < n → n < fuel →
      ∃ d ds, digitsAux fuel n = d :: ds ∧ d.isDigit = true ∧ d ≠ '0' := by
  induction fuel with
  | zero => intro n h1 h2; exact absurd h2 (by omega)
  | succ f ih =>
    intro n h1 h2
    unfold digitsAux
    split_ifs with h10
    · exact ⟨digitChar n, [], rfl, digitChar_isDigit n, digitChar_ne_zero n (by omega)⟩
    · push_neg at h10
      obtain ⟨d, ds, heq, hd1, hd2⟩ := ih (n / 10) (by omega) (by omega)
      exact ⟨d, ds ++ [digitChar (n % 10)], by rw [heq]; rfl, hd1, hd2⟩

theorem parseDigits_digits_append (ds : List Char) (h : ∀ c ∈ ds, c.isDigit = true) :
    ∀ acc : ℕ, parseDigits (ds ++ objEnd) acc =
      (List.foldl (fun a c => a * 10 + digitVal c) acc ds, objEnd) := by
  induction ds with
  | nil => intro acc; rfl
  | cons c cs ih =>
    intro acc
    have hc : c.isDigit = true := h c (List.mem_cons_self c cs)
    have hcs : ∀ x ∈ cs, x.isDigit = true := fun x hx => h x (List.mem_cons_of_mem c hx)
    show parseDigits (c :: (cs ++ objEnd)) acc = _
    simp only [parseDigits, hc, if_true, List.foldl_cons]
    exact ih hcs _

theorem parseSpeed_natChars (s : ℕ) :
    parseSpeed (natChars s ++ objEnd) = some (s, objEnd) := by
  rcases Nat.eq_zero_or_pos s with h0 | hpos
  · rw [h0]; rfl
  · obtain ⟨d, ds, heq, hdig, hne⟩ := digitsAux_head (s + 1) s hpos (by omega)
    have hds : ∀ c ∈ ds, c.isDigit = true := by
      intro c hc
      exact digitsAux_digits (s + 1) s c (by rw [heq]; exact List.mem_cons_of_mem d hc)
    have hfold := digitsAux_foldl (s + 1) s 0 (by omega)
    rw [heq] at hfold
    simp only [List.foldl_cons, Nat.zero_mul, Nat.zero_add] at hfold
    show parseSpeed (natChars s ++ objEnd) = _
    rw [natChars, heq]
    show parseSpeed (d :: (ds ++ objEnd)) = _
    have hstep : parseSpeed (d :: (ds ++ objEnd)) =
        if d = '0' then some (0, ds ++ objEnd)
        else if d.isDigit = true then some (parseDigits (ds ++ objEnd) (digitVal d))
        else none := rfl
    rw [hstep, if_neg hne, if_pos hdig, parseDigits_digits_append ds hds (digitVal d), hfold]

/-- C8: decoding the canonical JSON encoding of any valid `Command` yields
exactly the original command — for every motor, direction, and representable
(`u16`) speed, and for both variants. -/
theorem C8_roundtrip :
    (∀ (m : RoverMotorId) (d : DCMotorDirection) (s : ℕ), s ≤ 65535 →
      decode (encode (.MotorRun m d s)) = some (.MotorRun m d s)) ∧
    (∀ m : RoverMotorId, decode (encode (.MotorStop m)) = some (.MotorStop m)) := by
  constructor
  · intro m d s hs
    show decodeList (encodeList (.MotorRun m d s)) = _
    cases m <;> cases d <;>
      · simp only [encodeList, motorTag, dirTag, decodeList, parseRunTail,
          dropLit_self, parseMotorId_leftTag, parseMotorId_rightTag,
          parseDirection_fwdTag, parseDirection_bwdTag, parseSpeed_natChars]
        rw [if_pos hs, dropLit_refl]
  · intro m
    cases m <;> decide

/-- Witness for C8 on `MotorRun Right Backward 65535`. -/
theorem C8_roundtrip_witness :
    decode (encode (.MotorRun .Right .Backward 65535)) =
      some (.MotorRun .Right .Backward 65535) :=
  C8_roundtrip.1 .Right .Backward 65535 (by decide)

end RoverSpec
